import Mathlib

/-!
Shallow embedding of the dynamic option resolution protocol of the
LibriaForge/scaffold CLI, translated from
`cli/src/commands/register-new.command.ts`:

* the JS-record data model (`RecordV`) and the option definition type,
* `castValue` and the argv micro-parser `preParseArgv`,
* the registration-time fixed-point discovery loop of `registerPluginCommand`,
* the invocation-time `resolveOptions` loop and the readline handle lifecycle
  of the command action.

JavaScript machine details kept explicit: records are insertion-ordered
key/value lists with last-write-wins assignment; `undefined` is the `Value.undef`
constructor (a record entry holding `undef` is treated as absent by every
`!== undefined` check in the source); `Number(raw)` is kept as the uninterpreted
`Value.numOf` tag around its operand, since no code path under scrutiny inspects
the numeric result.
-/

set_option autoImplicit false

namespace Scaffold

/-- The `type` field of a `ScaffoldTemplatePluginOption`:
`'string' | 'boolean' | 'number' | 'array'`. -/
inductive OptionType where
  | string
  | boolean
  | number
  | array
  deriving DecidableEq, Repr

/-- A JavaScript value as it flows through the resolution engine.
`numOf raw` stands for `Number(raw)` (with `numOf none` for
`Number(undefined)`, i.e. `NaN`); `undef` is JS `undefined`. -/
inductive Value where
  | str (v : String)
  | boolVal (v : Bool)
  | numOf (raw : Option String)
  | arr (v : List String)
  | undef
  deriving DecidableEq, Repr

/-- A JS object used as a record of option values (`Record<string, unknown>`):
an insertion-ordered association list with unique keys. -/
abbrev RecordV := List (String × Value)

/-- Property read `r[k]`: `none` when the key is absent. -/
def getV (r : RecordV) (k : String) : Option Value :=
  (r.find? (fun p => p.1 == k)).map (fun p => p.2)

/-- Property write `r[k] = v`: an existing key keeps its position and gets the
new value, a new key is appended (JS object insertion-order semantics). -/
def setV : RecordV → String → Value → RecordV
  | [], k, v => [(k, v)]
  | p :: rest, k, v => if p.1 == k then (k, v) :: rest else p :: setV rest k v

/-- The pervasive `r[k] !== undefined` check of the source: the key is present
and its value is not `undefined`. -/
def isDefinedV (r : RecordV) (k : String) : Bool :=
  match getV r k with
  | some .undef => false
  | some _ => true
  | none => false

/-- Object spread `{ ...a, ...b }`. -/
def mergeV (a b : RecordV) : RecordV :=
  b.foldl (fun acc p => setV acc p.1 p.2) a

/-- An option definition as declared by a template provider
(`ScaffoldTemplatePluginOption`). -/
structure OptionDef where
  flags : String
  type : OptionType
  description : String := ""
  defaultValue : Option Value := none
  choices : Option (List String) := none
  required : Bool := false
  deriving DecidableEq, Repr

/-- An option schema: the record returned by `plugin.getOptions`, keyed by
option key (`Object.entries` order preserved). -/
abbrev RecordD := List (String × OptionDef)

/-- The key set of a schema (`new Set(Object.keys(optionDefs))`). -/
def keysOfD (s : RecordD) : Finset String :=
  (s.map (fun p => p.1)).toFinset

-- ── JS string primitives ────────────────────────────────────────────────────
-- Structurally recursive models of the JavaScript string methods the parser
-- uses (split on a one-character separator, trim, startsWith, Array.join),
-- so that concrete parses evaluate inside the kernel.

/-- A character removed by JS `String.prototype.trim`. -/
def isJsSpace (c : Char) : Bool :=
  c == ' ' || c == '\t' || c == '\n' || c == '\r'

/-- Both-ends whitespace strip on a character list. -/
def jsTrimList (l : List Char) : List Char :=
  ((((l.dropWhile isJsSpace).reverse).dropWhile isJsSpace)).reverse

/-- JS `s.trim()`. -/
def jsTrim (s : String) : String :=
  String.mk (jsTrimList s.toList)

/-- Accumulator pass of `jsSplitChar`. -/
def splitCharAux (sep : Char) : List Char → List Char → List (List Char)
  | [], acc => [acc.reverse]
  | c :: rest, acc =>
    if c == sep then acc.reverse :: splitCharAux sep rest []
    else splitCharAux sep rest (c :: acc)

/-- JS `s.split(sep)` for a one-character separator (the source only splits on
a comma and on an equals sign). -/
def jsSplitChar (sep : Char) (s : String) : List String :=
  (splitCharAux sep s.toList []).map String.mk

/-- JS `s.startsWith(pre)`. -/
def jsStartsWith (s pre : String) : Bool :=
  pre.toList.isPrefixOf s.toList

/-- JS `parts.join(sep)`. -/
def jsJoin (sep : String) : List String → String
  | [] => ""
  | [x] => x
  | x :: xs => x ++ sep ++ jsJoin sep xs

-- ── castValue (register-new.command.ts, lines 140-155) ──────────────────────

/-- Coerce a raw argv string to the option's semantic type, translated from
`castValue`. The array branch splits on commas, trims, drops empty parts and,
when a non-empty choice set is declared, keeps only its members. -/
def castValue (t : OptionType) (value : String) (choices : Option (List String)) :
    Value :=
  match t with
  | .array =>
    let parts := ((jsSplitChar ',' value).map jsTrim).filter (fun s => !(s == ""))
    match choices with
    | some cs =>
      if cs.isEmpty then .arr parts else .arr (parts.filter (fun p => cs.contains p))
    | none => .arr parts
  | .number => .numOf (some value)
  | .boolean => .boolVal (value == "true")
  | .string => .str value

-- ── Flag name extraction and key derivation ─────────────────────────────────

/-- Character class `[a-z]` under the `i` flag: an ASCII letter. -/
def isFlagLetter (c : Char) : Bool :=
  (('a' ≤ c) && (c ≤ 'z')) || (('A' ≤ c) && (c ≤ 'Z'))

/-- Character class `[a-z-]` under the `i` flag. -/
def isFlagNameChar (c : Char) : Bool :=
  isFlagLetter c || c == '-'

/-- First match of the case-insensitive regex `--([a-z][a-z-]*)` over a
character list, returning the captured group (the flag base name without the
leading dashes). -/
def scanFlagName : List Char → Option (List Char)
  | [] => none
  | c0 :: rest =>
    match c0, rest with
    | '-', '-' :: c :: r2 =>
      if isFlagLetter c then some (c :: r2.takeWhile isFlagNameChar)
      else scanFlagName rest
    | _, _ => scanFlagName rest

/-- Base name extracted from a `flags` specification string by the
`def.flags.match` regex scan of the source. -/
def flagBaseName (flags : String) : Option String :=
  (scanFlagName flags.toList).map (fun cs => String.mk cs)

/-- Record key derived from a flag base name: the global replace of the
pattern `-([a-z])` (no i flag) by the capture uppercased, as in
`baseName.replace` of the source. The Bool flag records a pending dash whose
following character has not been inspected yet. -/
def camelRun : Bool → List Char → List Char
  | false, [] => []
  | false, '-' :: rest => camelRun true rest
  | false, c :: rest => c :: camelRun false rest
  | true, [] => ['-']
  | true, c :: rest =>
    if ('a' ≤ c) && (c ≤ 'z') then c.toUpper :: camelRun false rest
    else if c = '-' then '-' :: camelRun true rest
    else '-' :: c :: camelRun false rest

/-- String form of the camel-case key derivation. -/
def camelStr (s : String) : String :=
  String.mk (camelRun false s.toList)

-- ── preParseArgv (register-new.command.ts, lines 162-249) ───────────────────

/-- Boundary test of the variadic collection loop: collection continues while
the next token does not start with `--` and, when a non-empty choice set is
declared, is a member of it. -/
def takeArrayTokens (choices : Option (List String)) (rest : List String) :
    List String :=
  rest.takeWhile (fun next =>
    !(jsStartsWith next "--") &&
      (match choices with
       | some cs => cs.isEmpty || cs.contains next
       | none => true))

/-- One pass of the inner `for (const def of defs)` loop of `preParseArgv`:
try to match the current token `arg` (with lookahead `rest`) against a single
option definition. Returns the record key, the value stored into `result`, and
how many lookahead tokens the match consumed (`i` advancement beyond the
current token). `none` means this definition does not match `arg`. -/
def matchOneDef (d : OptionDef) (arg : String) (rest : List String) :
    Option (String × Value × Nat) :=
  match flagBaseName d.flags with
  | none => none
  | some baseName =>
    let positive := "--" ++ baseName
    let negative := "--no-" ++ baseName
    let key := camelStr baseName
    if arg == negative then
      -- boolean negation support: applies whatever the declared type is
      some (key, .boolVal false, 0)
    else if arg == positive && d.type == .boolean then
      some (key, .boolVal true, 0)
    else if jsStartsWith arg (positive ++ "=") then
      -- --flag=value (or --flag=v1,v2 for array):
      -- value = arg.split('=').slice(1).join('=').trim()
      let value := jsTrim (jsJoin "=" ((jsSplitChar '=' arg).drop 1))
      if d.type == .array then
        some (key, castValue .array value d.choices, 0)
      else
        some (key, castValue d.type value none, 0)
    else if arg == positive && d.type != .boolean then
      if d.type == .array then
        -- variadic form: greedily collect following tokens, then filter by
        -- the (non-empty) choice set; i += collected.length
        let collected := takeArrayTokens d.choices rest
        let filtered :=
          match d.choices with
          | some cs =>
            if cs.isEmpty then collected else collected.filter (fun c => cs.contains c)
          | none => collected
        some (key, .arr filtered, collected.length)
      else
        match rest with
        | nxt :: _ => some (key, castValue d.type nxt none, 1)
        | [] =>
          -- args[i + 1] past the end of argv is JS undefined:
          -- Number(undefined) is NaN, a string-typed option stores undefined
          -- (the boolean and array cases cannot reach this branch)
          some (key,
            (match d.type with
             | .number => .numOf none
             | .boolean => .boolVal false
             | _ => .undef), 1)
    else none

/-- The outer token scan of `preParseArgv` from index 2 on, with an explicit
skip counter standing for the `i += consumed` index jumps of the source: while
the counter is positive the token was already consumed by an earlier match and
is passed over; at zero, the first matching definition wins (`break`) and sets
the counter to the lookahead it consumed, and unmatched tokens are pushed onto
`remaining`. -/
def preParseScanSkip (defs : List OptionDef) :
    List String → Nat → RecordV → List String → RecordV × List String
  | [], _, result, remaining => (result, remaining)
  | _ :: rest, skip + 1, result, remaining =>
    preParseScanSkip defs rest skip result remaining
  | arg :: rest, 0, result, remaining =>
    match defs.findSome? (fun d => matchOneDef d arg rest) with
    | some (key, v, consumed) =>
      preParseScanSkip defs rest consumed (setV result key v) remaining
    | none => preParseScanSkip defs rest 0 result (remaining ++ [arg])

/-- The token scan started at index 2 of argv with nothing consumed yet. -/
def preParseScan (defs : List OptionDef) (toks : List String)
    (result : RecordV) (remaining : List String) : RecordV × List String :=
  preParseScanSkip defs toks 0 result remaining

/-- The argv micro-parser `preParseArgv`: `argv` is the full `process.argv`
(the first two entries, node and the cli path, are copied to `remaining`
unexamined). Returns the extracted value record and the residual argv. -/
def preParseArgv (defs : List OptionDef) (argv : List String) :
    RecordV × List String :=
  preParseScan defs (argv.drop 2) [] (argv.take 2)

-- ── Fixed-point discovery loop (registerPluginCommand, lines 300-321) ───────

/-- The registration-time `while (true)` discovery loop of
`registerPluginCommand`, fuel-indexed because the source has no iteration
bound. Besides the stabilized schema and collected record it returns the
number of non-breaking rounds performed and the successive values taken by the
`previousKeys` variable at each loop entry (the DiscoverySnapshot trace).
`none` means the fuel ran out before the key set stabilized. -/
def discoverLoop (getOptions : RecordV → RecordD) (argv : List String) :
    Nat → RecordD → RecordV → Finset String →
    Option (RecordD × RecordV × Nat × List (Finset String))
  | 0, _, _, _ => none
  | fuel + 1, optionDefs, preCollected, previousKeys =>
    let currentKeys := keysOfD optionDefs
    if currentKeys \ previousKeys = ∅ then
      some (optionDefs, preCollected, 0, [previousKeys])
    else
      let parsed := (preParseArgv (optionDefs.map (fun p => p.2)) argv).1
      let preCollected' := mergeV preCollected parsed
      let optionDefs' := getOptions preCollected'
      match discoverLoop getOptions argv fuel optionDefs' preCollected' currentKeys with
      | none => none
      | some (d, c, n, snaps) => some (d, c, n + 1, previousKeys :: snaps)

/-- The seed record `baseOpts = { name: '', subcommand }` of
`registerPluginCommand` (an absent subcommand is the JS `undefined`). -/
def baseOptsOf (sub : Option String) : RecordV :=
  [("name", Value.str ""),
   ("subcommand", match sub with | some s => Value.str s | none => Value.undef)]

/-- Entry into the discovery loop as performed by `registerPluginCommand`:
seed `baseOpts`, query the provider once, and run the loop from an empty
snapshot. -/
def registerDiscover (getOptions : RecordV → RecordD) (argv : List String)
    (sub : Option String) (fuel : Nat) :
    Option (RecordD × RecordV × Nat × List (Finset String)) :=
  discoverLoop getOptions argv fuel (getOptions (baseOptsOf sub)) (baseOptsOf sub) ∅

-- ── resolveOptions (registerPluginCommand / register-new, lines 109-137) ────

/-- One pass of the `for (const [key, def] of Object.entries(optionDefs))`
loop of `resolveOptions`: already-defined keys are skipped; otherwise the
CLI-provided value is taken when defined, else the interactive prompt (the
`prompt` oracle abstracts the console I/O of `promptForOption`). The Bool
accumulator is `hasNewOptions`. -/
def resolveRound (cliOpts : RecordV) (prompt : String → OptionDef → Value) :
    List (String × OptionDef) → RecordV → Bool → RecordV × Bool
  | [], collected, hasNew => (collected, hasNew)
  | (key, d) :: rest, collected, hasNew =>
    if isDefinedV collected key then
      resolveRound cliOpts prompt rest collected hasNew
    else if isDefinedV cliOpts key then
      resolveRound cliOpts prompt rest
        (setV collected key ((getV cliOpts key).getD .undef)) true
    else
      resolveRound cliOpts prompt rest (setV collected key (prompt key d)) true

/-- The invocation-time `resolveOptions` loop, fuel-indexed (the source has no
iteration bound): repeat rounds until a full pass adds no new key. -/
def resolveOptionsFn (getOptions : RecordV → RecordD) (cliOpts : RecordV)
    (prompt : String → OptionDef → Value) :
    Nat → RecordV → Option RecordV
  | 0, _ => none
  | fuel + 1, collected =>
    let st := resolveRound cliOpts prompt (getOptions collected) collected false
    if st.2 then resolveOptionsFn getOptions cliOpts prompt fuel st.1
    else some st.1

-- ── Commander option registration (registerOption, lines 253-275) ───────────

/-- The shape of an `InteractiveOption` after `registerOption` configured it. -/
structure RegisteredOption where
  flags : String
  description : String
  defaultVal : Option Value
  choiceSet : Option (List String)
  mandatory : Bool
  deriving DecidableEq, Repr

/-- Does a `Value` satisfy `Array.isArray`. -/
def isArrV : Value → Bool
  | .arr _ => true
  | _ => false

/-- Translation of `registerOption`: a defined default is installed (coerced to
`[]` for an array-typed option with a non-array default), a non-empty choice
set is installed, and `required` marks the option mandatory. -/
def registerOption (d : OptionDef) : RegisteredOption :=
  { flags := d.flags
    description := d.description
    defaultVal :=
      match d.defaultValue with
      | none => none
      | some .undef => none
      | some dv =>
        if d.type == .array && !isArrV dv then some (.arr []) else some dv
    choiceSet :=
      match d.choices with
      | some cs => if cs.isEmpty then none else some cs
      | none => none
    mandatory := d.required }

/-- Record key under which the command-line parser stores an option's value,
derived from its flags the same way the source derives option keys. -/
def regOptionKey (o : RegisteredOption) : Option String :=
  (flagBaseName o.flags).map camelStr

/-- Modelled from the spec: the mandatory-option enforcement of the external
command-line parsing library (interactive-commander / commander), which is not
part of this repository's sources — only `registerOption`'s calls to
`makeOptionMandatory`, `default` and `choices` are. Per spec sections 4.5, 6
and 7, after argv parsing the parser fills in defaults for unsupplied options
and fails hard — before the command's action (and hence `execute`) runs — when
any option marked mandatory still has no value; the failure names the missing
options. -/
def commanderParse (opts : List RegisteredOption) (supplied : RecordV) :
    Except (List String) RecordV :=
  let missing := opts.filter (fun o =>
    o.mandatory &&
      (match regOptionKey o with
       | some key => !(isDefinedV supplied key) && o.defaultVal.isNone
       | none => false))
  if missing.isEmpty then
    .ok (opts.foldl (fun acc o =>
      match regOptionKey o with
      | some key =>
        if isDefinedV supplied key then acc
        else
          match o.defaultVal with
          | some dv => setV acc key dv
          | none => acc
      | none => acc) supplied)
  else
    .error (missing.map (fun o => o.flags))

/-- Whether a session over the registered option definitions reaches the
command's action (the closure containing `resolveOptions` and
`plugin.execute`): it does exactly when the modelled command-line parse
succeeds. -/
def sessionReachesAction (defs : List OptionDef) (supplied : RecordV) : Bool :=
  match commanderParse (defs.map registerOption) supplied with
  | .ok _ => true
  | .error _ => false

-- ── Readline handle lifecycle (lines 15-29 and the action, lines 328-340) ───

/-- Variant of `resolveRound` that also tracks whether the module-level
readline interface `rl` is open: taking the interactive branch calls `ask`,
whose `getRL()` lazily opens the handle. -/
def resolveRoundRL (cliOpts : RecordV) (prompt : String → OptionDef → Value) :
    List (String × OptionDef) → RecordV → Bool → Bool → RecordV × Bool × Bool
  | [], collected, hasNew, rl => (collected, hasNew, rl)
  | (key, d) :: rest, collected, hasNew, rl =>
    if isDefinedV collected key then
      resolveRoundRL cliOpts prompt rest collected hasNew rl
    else if isDefinedV cliOpts key then
      resolveRoundRL cliOpts prompt rest
        (setV collected key ((getV cliOpts key).getD .undef)) true rl
    else
      resolveRoundRL cliOpts prompt rest (setV collected key (prompt key d)) true true

/-- The `resolveOptions` loop with a provider whose awaited `getOptions` call
may reject (throw): the rejection propagates out of `resolveOptions`
immediately, and the readline state at that moment travels with the outcome.
Result: `none` when fuel runs out, otherwise the readline state paired with
either the thrown error or the final collected record. -/
def resolveOptionsRL (getOptionsE : RecordV → Except Unit RecordD)
    (cliOpts : RecordV) (prompt : String → OptionDef → Value) :
    Nat → RecordV → Bool → Option (Bool × Except Unit RecordV)
  | 0, _, _ => none
  | fuel + 1, collected, rl =>
    match getOptionsE collected with
    | .error e => some (rl, .error e)
    | .ok optionDefs =>
      let st := resolveRoundRL cliOpts prompt optionDefs collected false rl
      if st.2.1 then resolveOptionsRL getOptionsE cliOpts prompt fuel st.1 st.2.2
      else some (st.2.2, .ok st.1)

/-- The body of `sub.action` (lines 328-340): seed `collected` from the
positional name, the subcommand and the housekeeping flags, await
`resolveOptions`, then `closeRL()` and await `plugin.execute`. A rejection of
`resolveOptions` propagates out of the async action before `closeRL()` is
reached. Returns `none` on fuel exhaustion, otherwise
(final readline state, whether `execute` was invoked, outcome). -/
def actionBody (getOptionsE : RecordV → Except Unit RecordD)
    (prompt : String → OptionDef → Value)
    (executeResult : RecordV → Except Unit Unit)
    (name : String) (sub : Option String) (cliOpts : RecordV)
    (fuel : Nat) (rl : Bool) : Option (Bool × Bool × Except Unit Unit) :=
  let collected : RecordV :=
    [("name", Value.str name),
     ("subcommand", match sub with | some s => Value.str s | none => Value.undef),
     ("dryRun", (getV cliOpts "dryRun").getD .undef),
     ("force", (getV cliOpts "force").getD .undef)]
  match resolveOptionsRL getOptionsE cliOpts prompt fuel collected rl with
  | none => none
  | some (rl1, .error e) => some (rl1, false, .error e)
  | some (_, .ok c) =>
    -- closeRL(); await plugin.execute(collected)
    some (false, true, executeResult c)

-- ── Basic record lemmas ─────────────────────────────────────────────────────

@[simp]
theorem getV_nil (k : String) : getV [] k = none := rfl

theorem getV_cons (p : String × Value) (r : RecordV) (k : String) :
    getV (p :: r) k = if p.1 == k then some p.2 else getV r k := by
  by_cases h : p.1 == k <;> simp [getV, List.find?_cons, h]

@[simp]
theorem getV_setV_self (r : RecordV) (k : String) (v : Value) :
    getV (setV r k v) k = some v := by
  induction r with
  | nil => simp [setV, getV_cons]
  | cons p rest ih =>
    by_cases h : p.1 == k <;> simp [setV, h, getV_cons, ih]

theorem getV_setV_ne (r : RecordV) (k k' : String) (v : Value) (h : k ≠ k') :
    getV (setV r k v) k' = getV r k' := by
  induction r with
  | nil => simp [setV, getV_cons, h]
  | cons p rest ih =>
    by_cases hp : p.1 == k
    · have hp' : (p.1 == k') = false := by
        simp only [beq_iff_eq] at hp ⊢
        simp [hp, h]
      simp [setV, hp, getV_cons, hp', h]
    · simp [setV, hp, getV_cons, ih]

theorem isDefinedV_setV_ne (r : RecordV) (k k' : String) (v : Value) (h : k ≠ k') :
    isDefinedV (setV r k v) k' = isDefinedV r k' := by
  simp [isDefinedV, getV_setV_ne r k k' v h]

-- ── C2: the equals form on an array option with choices ─────────────────────

/-- C2 (counterexample): for an array-typed option with
choices = ["a","b","c"], the equals-form token `--opt=a,b,x` does NOT yield
the literal list ["a","b","x"]: `castValue` filters the comma-split parts by
the choice set, so the micro-parser yields ["a","b"]. -/
theorem c2_equals_form_counterexample :
    getV (preParseArgv
        [{ flags := "--opt <values...>", type := .array,
           choices := some ["a", "b", "c"] }]
        ["node", "cli", "--opt=a,b,x"]).1 "opt"
      = some (.arr ["a", "b"]) ∧
    getV (preParseArgv
        [{ flags := "--opt <values...>", type := .array,
           choices := some ["a", "b", "c"] }]
        ["node", "cli", "--opt=a,b,x"]).1 "opt"
      ≠ some (.arr ["a", "b", "x"]) := by
  constructor
  · rfl
  · decide

/-- C2 (amended): for every array-typed option definition with
choices = ["a","b","c"] (whatever its description, default and required
flag), parsing `--opt=a,b,x` yields ["a","b"]: the equals form splits the raw
remainder after the equals sign on commas and then filters the elements by
the declared choice set, exactly like the space form does. -/
theorem c2_equals_form_filters_by_choices (desc : String) (dv : Option Value)
    (req : Bool) :
    getV (preParseArgv
        [{ flags := "--opt <values...>", type := .array, description := desc,
           defaultValue := dv, choices := some ["a", "b", "c"],
           required := req }]
        ["node", "cli", "--opt=a,b,x"]).1 "opt"
      = some (.arr ["a", "b"]) := by
  rfl

-- ── C6: scalar option with choices, invalid argv value ──────────────────────

/-- C6 (counterexample): for a string-typed option with
choices = ["css","scss"] the argv value `foo`, and for a number-typed option
with choices = ["80","443"] the argv value `9999`, are not members of the
respective choice sets, yet the micro-parser does NOT treat either option as
unmatched: it assigns the raw coerced value to the option's key. -/
theorem c6_scalar_choice_counterexample :
    ("foo" ∉ ["css", "scss"] ∧
      getV (preParseArgv
          [{ flags := "--style <style>", type := .string,
             choices := some ["css", "scss"] }]
          ["node", "cli", "--style=foo"]).1 "style"
        = some (.str "foo")) ∧
    ("9999" ∉ ["80", "443"] ∧
      getV (preParseArgv
          [{ flags := "--port <port>", type := .number,
             choices := some ["80", "443"] }]
          ["node", "cli", "--port=9999"]).1 "port"
        = some (.numOf (some "9999"))) := by
  refine ⟨⟨?_, ?_⟩, ?_, ?_⟩
  · decide
  · rfl
  · decide
  · rfl

/-- C6 (amended): for every scalar-typed — string- or number-typed — option
definition with a declared non-empty choice set, a space-form argv value is
assigned by the micro-parser with its raw coercion (`value` itself for
string, `Number(value)` for number) even when it is not a member of the
choice set: parse-time choice filtering applies only to array-typed options,
and scalar choice enforcement is left to the full command-line parser and the
interactive layer. -/
theorem c6_scalar_choice_not_validated (desc : String) (dv : Option Value)
    (req : Bool) (cs : List String) (v : String)
    (hcs : cs ≠ []) (hv : v ∉ cs) :
    getV (preParseArgv
        [{ flags := "--style <style>", type := .string, description := desc,
           defaultValue := dv, choices := some cs, required := req }]
        ["node", "cli", "--style", v]).1 "style"
      = some (.str v) ∧
    getV (preParseArgv
        [{ flags := "--port <port>", type := .number, description := desc,
           defaultValue := dv, choices := some cs, required := req }]
        ["node", "cli", "--port", v]).1 "port"
      = some (.numOf (some v)) := by
  constructor
  · rfl
  · rfl

/-- Witness for `c6_scalar_choice_not_validated` at choices = ["css","scss"]
and value "foo", for both the string-typed and the number-typed option. -/
theorem c6_scalar_choice_not_validated_witness :
    (["css", "scss"] ≠ ([] : List String)) ∧ ("foo" ∉ ["css", "scss"]) ∧
    getV (preParseArgv
        [{ flags := "--style <style>", type := .string, description := "",
           defaultValue := none, choices := some ["css", "scss"],
           required := false }]
        ["node", "cli", "--style", "foo"]).1 "style"
      = some (.str "foo") ∧
    getV (preParseArgv
        [{ flags := "--port <port>", type := .number, description := "",
           defaultValue := none, choices := some ["css", "scss"],
           required := false }]
        ["node", "cli", "--port", "foo"]).1 "port"
      = some (.numOf (some "foo")) :=
  ⟨by decide, by decide,
    c6_scalar_choice_not_validated "" none false ["css", "scss"] "foo"
      (by decide) (by decide)⟩

-- ── C10: negation token matches regardless of declared type ─────────────────

/-- C10: in the argv micro-parser the negation token `--no-flag` assigns the
boolean value false to the option's key regardless of the option's declared
type (string, number, array — and boolean alike): the token is consumed, not
left as an unmatched residual token. -/
theorem c10_negation_ignores_type (t : OptionType) (desc : String)
    (dv : Option Value) (cs : Option (List String)) (req : Bool) :
    preParseArgv
        [{ flags := "--flag <value>", type := t, description := desc,
           defaultValue := dv, choices := cs, required := req }]
        ["node", "cli", "--no-flag"]
      = ([("flag", .boolVal false)], ["node", "cli"]) := by
  rfl

-- ── C7: the ResolutionState is never overwritten once set ───────────────────

/-- A key already carrying a defined value survives one full pass of the
inner assignment loop of `resolveOptions` untouched: every assignment is
guarded by the `collected[key] !== undefined` skip. -/
theorem resolveRound_preserves (cliOpts : RecordV)
    (prompt : String → OptionDef → Value) (defs : List (String × OptionDef)) :
    ∀ (collected : RecordV) (hasNew : Bool) (k : String) (v : Value),
      getV collected k = some v → v ≠ .undef →
      getV (resolveRound cliOpts prompt defs collected hasNew).1 k = some v := by
  induction defs with
  | nil =>
    intro collected hasNew k v hv _
    simpa [resolveRound] using hv
  | cons p rest ih =>
    intro collected hasNew k v hv hne
    obtain ⟨key, d⟩ := p
    have hkdef : isDefinedV collected k = true := by
      cases v with
      | undef => exact absurd rfl hne
      | str w => simp [isDefinedV, hv]
      | boolVal w => simp [isDefinedV, hv]
      | numOf w => simp [isDefinedV, hv]
      | arr w => simp [isDefinedV, hv]
    by_cases hdef : isDefinedV collected key
    · simpa [resolveRound, hdef] using ih collected hasNew k v hv hne
    · have hkk : key ≠ k := by
        intro h
        rw [h] at hdef
        exact hdef hkdef
      by_cases hcli : isDefinedV cliOpts key
      · have hstep : resolveRound cliOpts prompt ((key, d) :: rest) collected hasNew
            = resolveRound cliOpts prompt rest
                (setV collected key ((getV cliOpts key).getD .undef)) true := by
          simp [resolveRound, hdef, hcli]
        rw [hstep]
        exact ih _ _ k v (by rw [getV_setV_ne _ _ _ _ hkk]; exact hv) hne
      · have hstep : resolveRound cliOpts prompt ((key, d) :: rest) collected hasNew
            = resolveRound cliOpts prompt rest
                (setV collected key (prompt key d)) true := by
          simp [resolveRound, hdef, hcli]
        rw [hstep]
        exact ih _ _ k v (by rw [getV_setV_ne _ _ _ _ hkk]; exact hv) hne

/-- C7: within one invocation-time resolution session, the collected
ResolutionState is only ever extended at keys with no defined value yet: once
a key holds a defined value, every later iteration of `resolveOptions` leaves
it unchanged, so the value it holds when the session ends is the one it was
first given. -/
theorem c7_resolution_state_immutable (getOptions : RecordV → RecordD)
    (cliOpts : RecordV) (prompt : String → OptionDef → Value) :
    ∀ (fuel : Nat) (collected final : RecordV),
      resolveOptionsFn getOptions cliOpts prompt fuel collected = some final →
      ∀ (k : String) (v : Value), getV collected k = some v → v ≠ .undef →
        getV final k = some v := by
  intro fuel
  induction fuel with
  | zero =>
    intro collected final h
    simp [resolveOptionsFn] at h
  | succ fuel ih =>
    intro collected final h k v hv hne
    rw [resolveOptionsFn] at h
    by_cases hb :
        (resolveRound cliOpts prompt (getOptions collected) collected false).2 = true
    · rw [if_pos hb] at h
      exact ih _ final h k v
        (resolveRound_preserves cliOpts prompt (getOptions collected)
          collected false k v hv hne) hne
    · rw [if_neg hb] at h
      have hfin :
          (resolveRound cliOpts prompt (getOptions collected) collected false).1
            = final := by
        exact Option.some.inj h
      rw [← hfin]
      exact resolveRound_preserves cliOpts prompt (getOptions collected)
        collected false k v hv hne

/-- Witness for `c7_resolution_state_immutable`: a concrete two-round session
in which the seeded `name` entry survives resolution unchanged. -/
theorem c7_resolution_state_immutable_witness :
    resolveOptionsFn
        (fun _ => [("a", { flags := "--a <v>", type := OptionType.string })])
        [("a", Value.str "va")] (fun _ _ => Value.str "p") 3
        [("name", Value.str "n")]
      = some [("name", Value.str "n"), ("a", Value.str "va")] ∧
    getV [("name", Value.str "n"), ("a", Value.str "va")] "name"
      = some (Value.str "n") :=
  ⟨rfl,
    c7_resolution_state_immutable
      (fun _ => [("a", { flags := "--a <v>", type := OptionType.string })])
      [("a", Value.str "va")] (fun _ _ => Value.str "p") 3
      [("name", Value.str "n")] [("name", Value.str "n"), ("a", Value.str "va")]
      rfl "name" (Value.str "n") rfl (by decide)⟩

-- ── C9: readline handle release across exit paths ───────────────────────────

/-- A provider whose second `getOptions` call rejects: once `extra` has been
collected (by prompting, which opens the readline handle), the next awaited
call throws. -/
def throwingProvider (c : RecordV) : Except Unit RecordD :=
  if isDefinedV c "extra" then .error ()
  else .ok [("extra", { flags := "--extra <v>", type := .string })]

/-- C9 (counterexample): not every exit path of a session releases the
console input handle. Concretely: resolution prompts once (opening the
readline interface), then the provider's next `getOptions` call throws; the
rejection propagates out of the action before `closeRL()` is reached, so the
session exits with the handle still open (first component `true`) and
`execute` never invoked (second component `false`). -/
theorem c9_handle_leak_counterexample :
    actionBody throwingProvider (fun _ _ => Value.str "ans") (fun _ => .ok ())
        "proj" none [] 5 false
      = some (true, false, .error ()) := by
  rfl

/-- C9 (amended): the handle is released on the exit paths that reach the
post-resolution point: `closeRL()` runs after `resolveOptions` succeeds and
before `plugin.execute` is awaited, so whenever `execute` is invoked — whether
it then returns or throws — the session ends with the readline handle closed.
An exception thrown during resolution, by contrast, propagates without
releasing the handle (the counterexample above). -/
theorem c9_handle_closed_when_execute_runs
    (getOptionsE : RecordV → Except Unit RecordD)
    (prompt : String → OptionDef → Value)
    (executeResult : RecordV → Except Unit Unit)
    (name : String) (sub : Option String) (cliOpts : RecordV)
    (fuel : Nat) (rl rlFin : Bool) (out : Except Unit Unit)
    (h : actionBody getOptionsE prompt executeResult name sub cliOpts fuel rl
      = some (rlFin, true, out)) :
    rlFin = false := by
  simp only [actionBody] at h
  split at h
  · exact absurd h (by simp)
  · simp at h
  · simp at h
    exact h.1

/-- Witness for `c9_handle_closed_when_execute_runs`: a session with no
options to resolve completes normally with the handle closed. -/
theorem c9_handle_closed_when_execute_runs_witness :
    actionBody (fun _ => .ok []) (fun _ _ => Value.str "p") (fun _ => .ok ())
        "proj" none [] 2 false
      = some (false, true, .ok ()) ∧
    (false : Bool) = false :=
  ⟨rfl,
    c9_handle_closed_when_execute_runs (fun _ => .ok [])
      (fun _ _ => Value.str "p") (fun _ => .ok ()) "proj" none [] 2 false false
      (.ok ()) rfl⟩

-- ── C4: a required option with no value fails before execute ────────────────

/-- C4: when some registered option definition is `required`, has no default
value, and obtains no value from argv (and the session is non-interactive, so
no prompt can supply one), the command-line parse fails before the command's
action runs, so the provider's `execute` is never invoked in that session. -/
theorem c4_required_missing_blocks_execute (defs : List OptionDef)
    (supplied : RecordV) (d : OptionDef) (base : String)
    (hmem : d ∈ defs) (hreq : d.required = true)
    (hdv : d.defaultValue = none)
    (hbase : flagBaseName d.flags = some base)
    (hmiss : isDefinedV supplied (camelStr base) = false) :
    sessionReachesAction defs supplied = false := by
  unfold sessionReachesAction commanderParse
  have hpred :
      ((registerOption d).mandatory &&
        (match regOptionKey (registerOption d) with
         | some key => !(isDefinedV supplied key) && (registerOption d).defaultVal.isNone
         | none => false)) = true := by
    have hman : (registerOption d).mandatory = true := hreq
    have hkey : regOptionKey (registerOption d) = some (camelStr base) := by
      simp [regOptionKey, registerOption, hbase]
    have hdef : (registerOption d).defaultVal = none := by
      simp [registerOption, hdv]
    rw [hkey, hman, hdef]
    simp [hmiss]
  have hmm : registerOption d ∈ defs.map registerOption :=
    List.mem_map_of_mem registerOption hmem
  have hmemf : registerOption d ∈
      (defs.map registerOption).filter (fun o =>
        o.mandatory &&
          (match regOptionKey o with
           | some key => !(isDefinedV supplied key) && o.defaultVal.isNone
           | none => false)) :=
    List.mem_filter.mpr ⟨hmm, hpred⟩
  have hne :
      ((defs.map registerOption).filter (fun o =>
        o.mandatory &&
          (match regOptionKey o with
           | some key => !(isDefinedV supplied key) && o.defaultVal.isNone
           | none => false))).isEmpty = false := by
    cases hl :
        (defs.map registerOption).filter (fun o =>
          o.mandatory &&
            (match regOptionKey o with
             | some key => !(isDefinedV supplied key) && o.defaultVal.isNone
             | none => false)) with
    | nil =>
      rw [hl] at hmemf
      exact absurd hmemf (List.not_mem_nil _)
    | cons x xs => rfl
  simp only [hne]
  rfl

/-- Witness for `c4_required_missing_blocks_execute`: a single required
string option with no default and an empty argv-supplied record. -/
theorem c4_required_missing_blocks_execute_witness :
    sessionReachesAction
        [{ flags := "--token <t>", type := OptionType.string, required := true }]
        [] = false :=
  c4_required_missing_blocks_execute
    [{ flags := "--token <t>", type := OptionType.string, required := true }] []
    { flags := "--token <t>", type := OptionType.string, required := true }
    "token" (by decide) rfl rfl rfl rfl

-- ── C1: termination bound of the discovery loop ─────────────────────────────

/-- A well-formed (non-oscillating) provider in the sense of the spec:
collecting further values never removes option keys that were already
declared, so the declared key set only grows along a discovery run. -/
def KeyMonotone (getOptions : RecordV → RecordD) : Prop :=
  ∀ c p, keysOfD (getOptions c) ⊆ keysOfD (getOptions (mergeV c p))

/-- Generalized termination bound: from any state whose snapshot is contained
in the current key set, a key-monotone provider declaring keys inside the
finite universe `U` lets the loop finish within the available fuel, and the
number of non-breaking rounds plus the snapshot size stays within `U`. -/
theorem discoverLoop_total (getOptions : RecordV → RecordD) (argv : List String)
    (U : Finset String) (hU : ∀ c, keysOfD (getOptions c) ⊆ U)
    (hmono : KeyMonotone getOptions) :
    ∀ (fuel : Nat) (preCollected : RecordV) (previousKeys : Finset String),
      previousKeys ⊆ keysOfD (getOptions preCollected) →
      U.card + 1 - previousKeys.card ≤ fuel →
      ∃ d c n snaps,
        discoverLoop getOptions argv fuel (getOptions preCollected)
            preCollected previousKeys
          = some (d, c, n, snaps) ∧ n + previousKeys.card ≤ U.card := by
  intro fuel
  induction fuel with
  | zero =>
    intro preCollected previousKeys hsub hfuel
    have h2 : previousKeys.card ≤ U.card :=
      Finset.card_le_card (hsub.trans (hU preCollected))
    exact absurd hfuel (by omega)
  | succ fuel ih =>
    intro preCollected previousKeys hsub hfuel
    by_cases hstop : keysOfD (getOptions preCollected) \ previousKeys = ∅
    · refine ⟨getOptions preCollected, preCollected, 0, [previousKeys], ?_, ?_⟩
      · simp [discoverLoop, hstop]
      · simpa using Finset.card_le_card (hsub.trans (hU preCollected))
    · have hlt : previousKeys.card < (keysOfD (getOptions preCollected)).card := by
        apply Finset.card_lt_card
        rw [Finset.ssubset_def]
        refine ⟨hsub, fun hback => hstop ?_⟩
        rw [Finset.sdiff_eq_empty_iff_subset]
        exact hback
      have hcurU : (keysOfD (getOptions preCollected)).card ≤ U.card :=
        Finset.card_le_card (hU preCollected)
      obtain ⟨dd, cc, n, snaps, hrun, hcard⟩ :=
        ih (mergeV preCollected
              (preParseArgv ((getOptions preCollected).map (fun p => p.2)) argv).1)
           (keysOfD (getOptions preCollected))
           (hmono preCollected _)
           (by omega)
      refine ⟨dd, cc, n + 1, previousKeys :: snaps, ?_, by omega⟩
      simp only [discoverLoop, if_neg hstop]
      rw [hrun]

/-- C1: for every well-formed (key-monotone, hence non-oscillating) provider
whose declarable keys all lie in the finite universe `U`, the registration-time
fixed-point discovery loop terminates — fuel `U.card + 1` is never exhausted —
and performs at most `U.card` non-breaking rounds, i.e. at most as many rounds
as there are distinct declarable keys. -/
theorem c1_discovery_loop_terminates (getOptions : RecordV → RecordD)
    (argv : List String) (sub : Option String) (U : Finset String)
    (hU : ∀ c, keysOfD (getOptions c) ⊆ U)
    (hmono : KeyMonotone getOptions) :
    ∃ d c n snaps,
      registerDiscover getOptions argv sub (U.card + 1) = some (d, c, n, snaps) ∧
      n ≤ U.card := by
  obtain ⟨d, c, n, snaps, hrun, hcard⟩ :=
    discoverLoop_total getOptions argv U hU hmono (U.card + 1)
      (baseOptsOf sub) ∅ (Finset.empty_subset _) (by omega)
  refine ⟨d, c, n, snaps, ?_, by simpa using hcard⟩
  unfold registerDiscover
  exact hrun

/-- Witness for `c1_discovery_loop_terminates`: a constant provider declaring
the single key `version`. -/
theorem c1_discovery_loop_terminates_witness :
    ∃ d c n snaps,
      registerDiscover
          (fun _ => [("version", { flags := "--version <v>", type := OptionType.string })])
          [] none (({"version"} : Finset String).card + 1)
        = some (d, c, n, snaps) ∧
      n ≤ ({"version"} : Finset String).card :=
  c1_discovery_loop_terminates
    (fun _ => [("version", { flags := "--version <v>", type := OptionType.string })])
    [] none {"version"}
    (fun _ =>
      (by decide :
        keysOfD [("version", { flags := "--version <v>", type := OptionType.string })]
          ⊆ {"version"}))
    (fun _ _ =>
      (by decide :
        keysOfD [("version", { flags := "--version <v>", type := OptionType.string })]
          ⊆ keysOfD
              [("version", { flags := "--version <v>", type := OptionType.string })]))

-- ── C8: the DiscoverySnapshot across iterations ─────────────────────────────

/-- Snapshot trace of a discovery run, empty when the run did not finish. -/
def snapsOfRun (r : Option (RecordD × RecordV × Nat × List (Finset String))) :
    List (Finset String) :=
  match r with
  | some x => x.2.2.2
  | none => []

/-- A provider whose key set shrinks: before `alpha` is collected it declares
only `alpha`; afterwards it declares only `beta`. -/
def shrinkingProvider (c : RecordV) : RecordD :=
  if isDefinedV c "alpha" then
    [("beta", { flags := "--beta <v>", type := .string })]
  else
    [("alpha", { flags := "--alpha <v>", type := .string })]

/-- C8 (counterexample): the `previousKeys` snapshot does NOT grow
monotonically across iterations of every discovery run: with the shrinking
provider and argv supplying `--alpha x`, the snapshot trace is
`[∅, {alpha}, {beta}]` — the key `alpha`, present in the round-2 snapshot, is
gone from the round-3 snapshot, because the loop overwrites `previousKeys`
with the current key set instead of accumulating a union. -/
theorem c8_snapshot_not_monotone_counterexample :
    snapsOfRun (registerDiscover shrinkingProvider
        ["node", "cli", "--alpha", "x"] none 5)
      = [∅, {"alpha"}, {"beta"}] ∧
    "alpha" ∈ ({"alpha"} : Finset String) ∧
    "alpha" ∉ ({"beta"} : Finset String) := by
  decide

/-- For a key-monotone provider, the snapshot values taken along a finished
run form a `⊆`-chain starting at the initial snapshot. -/
theorem discoverLoop_snaps_chain (getOptions : RecordV → RecordD)
    (argv : List String) (hmono : KeyMonotone getOptions) :
    ∀ (fuel : Nat) (preCollected : RecordV) (previousKeys : Finset String)
      (d : RecordD) (c : RecordV) (n : Nat) (snaps : List (Finset String)),
      previousKeys ⊆ keysOfD (getOptions preCollected) →
      discoverLoop getOptions argv fuel (getOptions preCollected)
          preCollected previousKeys
        = some (d, c, n, snaps) →
      List.Chain' (· ⊆ ·) snaps ∧ snaps.head? = some previousKeys := by
  intro fuel
  induction fuel with
  | zero =>
    intro preCollected previousKeys d c n snaps _ h
    simp [discoverLoop] at h
  | succ fuel ih =>
    intro preCollected previousKeys d c n snaps hsub h
    by_cases hstop : keysOfD (getOptions preCollected) \ previousKeys = ∅
    · rw [discoverLoop, if_pos hstop] at h
      simp only [Option.some.injEq, Prod.mk.injEq] at h
      obtain ⟨-, -, -, hsnaps⟩ := h
      rw [← hsnaps]
      constructor
      · exact List.chain'_singleton previousKeys
      · rfl
    · simp only [discoverLoop, if_neg hstop] at h
      split at h
      · exact absurd h (by simp)
      · rename_i d2 c2 n2 s2 heq
        simp only [Option.some.injEq, Prod.mk.injEq] at h
        obtain ⟨-, -, -, hsnaps⟩ := h
        obtain ⟨hchain, hhead⟩ :=
          ih (mergeV preCollected
                (preParseArgv ((getOptions preCollected).map (fun p => p.2)) argv).1)
             (keysOfD (getOptions preCollected)) d2 c2 n2 s2
             (hmono preCollected _) heq
        rw [← hsnaps]
        constructor
        · refine List.chain'_cons'.mpr ⟨fun y hy => ?_, hchain⟩
          rw [hhead] at hy
          rw [Option.mem_def, Option.some.injEq] at hy
          rw [← hy]
          exact hsub
        · rfl

/-- C8 (amended): during one discovery run of a key-monotone (non-oscillating)
provider, the DiscoverySnapshot does grow monotonically: every key contained
in the `previousKeys` snapshot at some round is still contained in it at every
later round of that run. For a provider whose key set shrinks between rounds
the loop instead overwrites the snapshot, as the counterexample shows. -/
theorem c8_snapshot_monotone_for_monotone_provider
    (getOptions : RecordV → RecordD) (argv : List String) (sub : Option String)
    (fuel : Nat) (hmono : KeyMonotone getOptions)
    (d : RecordD) (c : RecordV) (n : Nat) (snaps : List (Finset String))
    (hrun : registerDiscover getOptions argv sub fuel = some (d, c, n, snaps))
    (i j : Nat) (hij : i ≤ j) (hj : j < snaps.length) :
    snaps.getD i ∅ ⊆ snaps.getD j ∅ := by
  have hrun' : discoverLoop getOptions argv fuel (getOptions (baseOptsOf sub))
      (baseOptsOf sub) ∅ = some (d, c, n, snaps) := by
    unfold registerDiscover at hrun
    exact hrun
  have hchain : List.Chain' (· ⊆ ·) snaps :=
    (discoverLoop_snaps_chain getOptions argv hmono fuel
      (baseOptsOf sub) ∅ d c n snaps (Finset.empty_subset _) hrun').1
  clear hrun hrun'
  induction j, hij using Nat.le_induction with
  | base => exact subset_rfl
  | succ j hij ih =>
    have hj' : j < snaps.length := by omega
    refine (ih hj').trans ?_
    have hstep := List.chain'_iff_get.mp hchain j (by omega)
    rw [List.getD_eq_get snaps ∅ hj', List.getD_eq_get snaps ∅ hj]
    exact hstep

/-- Witness for `c8_snapshot_monotone_for_monotone_provider`: the constant
single-key provider yields the snapshot trace `[∅, {version}]`, and the
round-1 snapshot is contained in the round-2 snapshot. -/
theorem c8_snapshot_monotone_witness :
    registerDiscover
        (fun _ => [("version", { flags := "--version <v>", type := OptionType.string })])
        [] none 3
      = some ([("version", { flags := "--version <v>", type := OptionType.string })],
          [("name", Value.str ""), ("subcommand", Value.undef)], 1,
          [∅, {"version"}]) ∧
    ([∅, {"version"}] : List (Finset String)).getD 0 ∅
      ⊆ ([∅, {"version"}] : List (Finset String)).getD 1 ∅ :=
  ⟨by decide,
    c8_snapshot_monotone_for_monotone_provider
      (fun _ => [("version", { flags := "--version <v>", type := OptionType.string })])
      [] none 3
      (fun _ _ =>
        (by decide :
          keysOfD [("version", { flags := "--version <v>", type := OptionType.string })]
            ⊆ keysOfD
                [("version", { flags := "--version <v>", type := OptionType.string })]))
      [("version", { flags := "--version <v>", type := OptionType.string })]
      [("name", Value.str ""), ("subcommand", Value.undef)] 1
      [∅, {"version"}] (by decide) 0 1 (by omega) (by decide)⟩

-- ── Scan step lemmas ────────────────────────────────────────────────────────

/-- One scan step at skip level zero, as a definitional equation. -/
theorem preParseScanSkip_cons_zero (defs : List OptionDef) (t : String)
    (rest : List String) (r : RecordV) (rem : List String) :
    preParseScanSkip defs (t :: rest) 0 r rem =
      match List.findSome? (fun d => matchOneDef d t rest) defs with
      | some (key, v, consumed) =>
        preParseScanSkip defs rest consumed (setV r key v) rem
      | none => preParseScanSkip defs rest 0 r (rem ++ [t]) := rfl

/-- The inner definition loop over a single definition. -/
theorem findSome?_singleton (f : OptionDef → Option (String × Value × Nat))
    (d : OptionDef) : List.findSome? f [d] = f d := by
  cases h : f d <;> simp [List.findSome?, h]

-- ── C5: boolean negation beats an earlier positive form ─────────────────────

/-- A boolean-typed option definition with flag spelling `--flag` and default
value `true`, as in the negation-precedence scenario of the spec. -/
def boolFlagDef (desc : String) (cs : Option (List String)) (req : Bool) :
    OptionDef :=
  { flags := "--flag", type := .boolean, description := desc,
    defaultValue := some (.boolVal true), choices := cs, required := req }

/-- A token that is neither `--flag` nor `--no-flag` nor an equals-form
assignment to `--flag` does not match the boolean option. -/
theorem boolFlagDef_match_none (desc : String) (cs : Option (List String))
    (req : Bool) (t : String) (rest : List String)
    (h1 : t ≠ "--flag") (h2 : t ≠ "--no-flag")
    (h3 : jsStartsWith t "--flag=" = false) :
    matchOneDef (boolFlagDef desc cs req) t rest = none := by
  simp only [matchOneDef, boolFlagDef]
  simp only [show flagBaseName "--flag" = some "flag" from rfl]
  simp only [show ("--no-" ++ "flag" : String) = "--no-flag" from rfl,
    show ("--" ++ "flag" : String) = "--flag" from rfl,
    show ("--flag" ++ "=" : String) = "--flag=" from rfl]
  simp [h1, h2, h3]

/-- Whenever the boolean option matches a token, the value lands under the
key `flag` and no lookahead token is consumed. -/
theorem boolFlagDef_match_shape (desc : String) (cs : Option (List String))
    (req : Bool) (t : String) (rest : List String) (k : String) (v : Value)
    (c : Nat)
    (hm : matchOneDef (boolFlagDef desc cs req) t rest = some (k, v, c)) :
    k = "flag" ∧ c = 0 := by
  simp only [matchOneDef, boolFlagDef,
    show flagBaseName "--flag" = some "flag" from rfl,
    show camelStr "flag" = "flag" from rfl] at hm
  simp at hm
  split_ifs at hm <;>
    simp only [Option.some.injEq, Prod.mk.injEq] at hm <;>
    try exact ⟨hm.1.symm, hm.2.2.symm⟩

/-- A scan over tokens none of which match the boolean option leaves the
result record untouched. -/
theorem preParseScanSkip_no_match_bool (desc : String)
    (cs : Option (List String)) (req : Bool) :
    ∀ (toks : List String) (r : RecordV) (rem : List String),
      (∀ t ∈ toks, ∀ rest, matchOneDef (boolFlagDef desc cs req) t rest = none) →
      (preParseScanSkip [boolFlagDef desc cs req] toks 0 r rem).1 = r := by
  intro toks
  induction toks with
  | nil => intro r rem _; rfl
  | cons t ts ih =>
    intro r rem h
    rw [preParseScanSkip_cons_zero, findSome?_singleton, h t (by simp) ts]
    exact ih r (rem ++ [t]) (fun u hu rest => h u (by simp [hu]) rest)

/-- Core of the negation-precedence property: after any prefix of tokens, a
`--no-flag` token followed only by tokens that cannot re-match the option
leaves `flag = false` in the parse result. -/
theorem preParseScanSkip_bool_tail (desc : String) (cs : Option (List String))
    (req : Bool) (post : List String)
    (hpost : ∀ t ∈ post, t ≠ "--flag" ∧ t ≠ "--no-flag" ∧
      jsStartsWith t "--flag=" = false) :
    ∀ (pre : List String) (r : RecordV) (rem : List String),
      getV (preParseScanSkip [boolFlagDef desc cs req]
          (pre ++ "--no-flag" :: post) 0 r rem).1 "flag"
        = some (.boolVal false) := by
  intro pre
  induction pre with
  | nil =>
    intro r rem
    rw [List.nil_append, preParseScanSkip_cons_zero, findSome?_singleton,
      show matchOneDef (boolFlagDef desc cs req) "--no-flag" post
        = some ("flag", Value.boolVal false, 0) from rfl]
    show getV (preParseScanSkip [boolFlagDef desc cs req] post 0
        (setV r "flag" (Value.boolVal false)) rem).1 "flag" = _
    rw [preParseScanSkip_no_match_bool desc cs req post
      (setV r "flag" (Value.boolVal false)) rem
      (fun t ht rest => boolFlagDef_match_none desc cs req t rest
        (hpost t ht).1 (hpost t ht).2.1 (hpost t ht).2.2)]
    exact getV_setV_self r "flag" (Value.boolVal false)
  | cons t pre' ih =>
    intro r rem
    rw [List.cons_append, preParseScanSkip_cons_zero, findSome?_singleton]
    cases hm : matchOneDef (boolFlagDef desc cs req) t
        (pre' ++ "--no-flag" :: post) with
    | none => exact ih r (rem ++ [t])
    | some x =>
      obtain ⟨k, v, c⟩ := x
      obtain ⟨hk, hc⟩ := boolFlagDef_match_shape desc cs req t _ k v c hm
      subst hk
      subst hc
      exact ih (setV r "flag" v) rem

/-- C5: for every boolean-typed option definition with flag `--flag` and
default value `true`, an argv token list containing `--no-flag` resolves the
option's key to `false`, whatever tokens precede it — in particular even when
the positive form `--flag` appears earlier in the token list — provided the
tokens after `--no-flag` do not re-match the option. -/
theorem c5_negation_beats_earlier_positive (desc : String)
    (cs : Option (List String)) (req : Bool) (pre post : List String)
    (hpost : ∀ t ∈ post, t ≠ "--flag" ∧ t ≠ "--no-flag" ∧
      jsStartsWith t "--flag=" = false) :
    getV (preParseArgv [boolFlagDef desc cs req]
        (["node", "cli"] ++ pre ++ "--no-flag" :: post)).1 "flag"
      = some (.boolVal false) := by
  show getV (preParseScanSkip [boolFlagDef desc cs req]
      (pre ++ "--no-flag" :: post) 0 [] ["node", "cli"]).1 "flag" = _
  exact preParseScanSkip_bool_tail desc cs req post hpost pre [] ["node", "cli"]

/-- Witness for `c5_negation_beats_earlier_positive`: `--flag` occurs before
`--no-flag`, an unrelated token follows, and the result is still `false`. -/
theorem c5_negation_beats_earlier_positive_witness :
    (∀ t ∈ ["x"], t ≠ "--flag" ∧ t ≠ "--no-flag" ∧
      jsStartsWith t "--flag=" = false) ∧
    getV (preParseArgv [boolFlagDef "" none false]
        (["node", "cli"] ++ ["--flag"] ++ "--no-flag" :: ["x"])).1 "flag"
      = some (.boolVal false) :=
  ⟨by decide,
    c5_negation_beats_earlier_positive "" none false ["--flag"] ["x"] (by decide)⟩

-- ── C3: greedy space-separated form for array options ───────────────────────

/-- The greedy collection stops exactly at the first token failing the
boundary test. -/
theorem takeWhile_append_stop {α : Type} (p : α → Bool) :
    ∀ (xs : List α) (y : α) (ys : List α),
      (∀ x ∈ xs, p x = true) → p y = false →
      (xs ++ y :: ys).takeWhile p = xs := by
  intro xs
  induction xs with
  | nil =>
    intro y ys _ hy
    simp [List.takeWhile_cons, hy]
  | cons x xs ih =>
    intro x_1 ys hxs hy
    have hx : p x = true := hxs x (by simp)
    simp [List.takeWhile_cons, hx, ih x_1 ys (fun a ha => hxs a (by simp [ha])) hy]

/-- Tokens consumed by a variadic match are passed over by the scan: jumping
the skip counter over a block of tokens resumes the scan right after it. -/
theorem preParseScanSkip_skip_all (defs : List OptionDef) :
    ∀ (xs ys : List String) (r : RecordV) (rem : List String),
      preParseScanSkip defs (xs ++ ys) xs.length r rem
        = preParseScanSkip defs ys 0 r rem := by
  intro xs
  induction xs with
  | nil => intro ys r rem; rfl
  | cons x xs ih => intro ys r rem; exact ih ys r rem

/-- An array-typed option definition with flag spelling `--opt`. -/
def arrayOptDef (desc : String) (dv : Option Value) (req : Bool)
    (cs : Option (List String)) : OptionDef :=
  { flags := "--opt", type := .array, description := desc,
    defaultValue := dv, choices := cs, required := req }

/-- Space-form greedy consumption with a declared non-empty choice set: the
tokens `vs` (non-flag members of the choice set) are all consumed and become
the option's value, and the scan resumes at the first boundary token `w`
(a token beginning with `--` or a non-member), leaving it unconsumed. -/
theorem preParseArgv_array_space_choices (desc : String) (dv : Option Value)
    (req : Bool) (csl : List String) (vs : List String) (w : String)
    (ws : List String) (hcs : csl ≠ [])
    (hvs : ∀ v ∈ vs, jsStartsWith v "--" = false ∧ v ∈ csl)
    (hw : jsStartsWith w "--" = true ∨ w ∉ csl) :
    preParseArgv [arrayOptDef desc dv req (some csl)]
        (["node", "cli", "--opt"] ++ vs ++ w :: ws)
      = preParseScan [arrayOptDef desc dv req (some csl)] (w :: ws)
          [("opt", Value.arr vs)] ["node", "cli"] := by
  have hisE : csl.isEmpty = false := by
    cases csl with
    | nil => exact absurd rfl hcs
    | cons a l => rfl
  have hcoll : takeArrayTokens (some csl) (vs ++ w :: ws) = vs := by
    unfold takeArrayTokens
    apply takeWhile_append_stop
    · intro v hv
      have h1 := (hvs v hv).1
      simp [h1]
      exact Or.inr (hvs v hv).2
    · rcases hw with hw1 | hw2
      · simp [hw1]
      · simp [hisE]
        intro _
        exact hw2
  have hfilt : vs.filter (fun c => csl.contains c) = vs :=
    List.filter_eq_self.mpr (fun v hv => List.elem_iff.mpr (hvs v hv).2)
  have hmatch : matchOneDef (arrayOptDef desc dv req (some csl)) "--opt"
      (vs ++ w :: ws)
      = some ("opt",
          Value.arr (if csl.isEmpty then takeArrayTokens (some csl) (vs ++ w :: ws)
            else (takeArrayTokens (some csl) (vs ++ w :: ws)).filter
              (fun c => csl.contains c)),
          (takeArrayTokens (some csl) (vs ++ w :: ws)).length) := rfl
  show preParseScanSkip [arrayOptDef desc dv req (some csl)]
      ("--opt" :: (vs ++ w :: ws)) 0 [] ["node", "cli"]
    = preParseScanSkip [arrayOptDef desc dv req (some csl)] (w :: ws) 0
        [("opt", Value.arr vs)] ["node", "cli"]
  rw [preParseScanSkip_cons_zero, findSome?_singleton, hmatch, hcoll]
  simp only [hisE, Bool.false_eq_true, if_false, hfilt]
  exact preParseScanSkip_skip_all _ vs (w :: ws) (setV [] "opt" (Value.arr vs))
    ["node", "cli"]

/-- Space-form greedy consumption without a choice set: consumption stops only
at the first token beginning with `--`, and nothing is filtered. -/
theorem preParseArgv_array_space_nochoices (desc : String) (dv : Option Value)
    (req : Bool) (vs : List String) (w : String) (ws : List String)
    (hvs : ∀ v ∈ vs, jsStartsWith v "--" = false)
    (hw : jsStartsWith w "--" = true) :
    preParseArgv [arrayOptDef desc dv req none]
        (["node", "cli", "--opt"] ++ vs ++ w :: ws)
      = preParseScan [arrayOptDef desc dv req none] (w :: ws)
          [("opt", Value.arr vs)] ["node", "cli"] := by
  have hcoll : takeArrayTokens none (vs ++ w :: ws) = vs := by
    unfold takeArrayTokens
    apply takeWhile_append_stop
    · intro v hv
      simp [hvs v hv]
    · simp [hw]
  have hmatch : matchOneDef (arrayOptDef desc dv req none) "--opt"
      (vs ++ w :: ws)
      = some ("opt", Value.arr (takeArrayTokens none (vs ++ w :: ws)),
          (takeArrayTokens none (vs ++ w :: ws)).length) := rfl
  show preParseScanSkip [arrayOptDef desc dv req none]
      ("--opt" :: (vs ++ w :: ws)) 0 [] ["node", "cli"]
    = preParseScanSkip [arrayOptDef desc dv req none] (w :: ws) 0
        [("opt", Value.arr vs)] ["node", "cli"]
  rw [preParseScanSkip_cons_zero, findSome?_singleton, hmatch, hcoll]
  exact preParseScanSkip_skip_all _ vs (w :: ws) (setV [] "opt" (Value.arr vs))
    ["node", "cli"]

/-- C3: for an array-typed option, the space-separated form consumes the
immediately following argv tokens greedily, stopping at the first token that
starts with `--` or — when a choice set is declared — is not a member of it;
the collected block becomes the option's value and the stopping token is left
for the rest of the scan. -/
theorem c3_array_space_form_greedy :
    (∀ (desc : String) (dv : Option Value) (req : Bool) (csl : List String)
        (vs : List String) (w : String) (ws : List String),
        csl ≠ [] →
        (∀ v ∈ vs, jsStartsWith v "--" = false ∧ v ∈ csl) →
        (jsStartsWith w "--" = true ∨ w ∉ csl) →
        preParseArgv [arrayOptDef desc dv req (some csl)]
            (["node", "cli", "--opt"] ++ vs ++ w :: ws)
          = preParseScan [arrayOptDef desc dv req (some csl)] (w :: ws)
              [("opt", Value.arr vs)] ["node", "cli"]) ∧
    (∀ (desc : String) (dv : Option Value) (req : Bool) (vs : List String)
        (w : String) (ws : List String),
        (∀ v ∈ vs, jsStartsWith v "--" = false) →
        jsStartsWith w "--" = true →
        preParseArgv [arrayOptDef desc dv req none]
            (["node", "cli", "--opt"] ++ vs ++ w :: ws)
          = preParseScan [arrayOptDef desc dv req none] (w :: ws)
              [("opt", Value.arr vs)] ["node", "cli"]) :=
  ⟨preParseArgv_array_space_choices, preParseArgv_array_space_nochoices⟩

/-- Witness for `c3_array_space_form_greedy`: with choices = ["a","b","c"],
parsing `--opt a b x --other` yields ["a","b"] and leaves `x` and `--other`
unconsumed in the residual argv. -/
theorem c3_array_space_form_greedy_witness :
    preParseArgv [arrayOptDef "" none false (some ["a", "b", "c"])]
        (["node", "cli", "--opt"] ++ ["a", "b"] ++ "x" :: ["--other"])
      = preParseScan [arrayOptDef "" none false (some ["a", "b", "c"])]
          ("x" :: ["--other"]) [("opt", Value.arr ["a", "b"])] ["node", "cli"] ∧
    preParseArgv [arrayOptDef "" none false (some ["a", "b", "c"])]
        ["node", "cli", "--opt", "a", "b", "x", "--other"]
      = ([("opt", Value.arr ["a", "b"])], ["node", "cli", "x", "--other"]) :=
  ⟨c3_array_space_form_greedy.1 "" none false ["a", "b", "c"] ["a", "b"] "x"
      ["--other"] (by decide) (by decide) (by decide),
    by decide⟩

end Scaffold
